import Mathlib

/-!
Shallow embedding of `src/teacher_resource_summary_app.py`, the ingestion,
normalization, filtering and aggregation pipeline of the Teacher Resource
Summary tool.  Timestamps are modelled as natural numbers counting
milliseconds since the Unix epoch (pandas datetimes have sub-second
resolution, so the one-second arithmetic on the date-range bound is
observable).  A missing or unparseable date (pandas `NaT`) is `none`.
-/

/-- Whitespace characters stripped by Python `str.strip()` (ASCII range). -/
def isPyWhitespace (c : Char) : Bool :=
  c = ' ' || c = '\t' || c = '\n' || c = '\r' || c = '\x0b' || c = '\x0c'

/-- Python `str.strip()`: remove leading and trailing whitespace. -/
def pyStrip (s : String) : String :=
  ⟨((s.data.dropWhile isPyWhitespace).reverse.dropWhile isPyWhitespace).reverse⟩

/-- One row of the canonical schema produced by the per-file normalization
(lines 59-80 of the source): a trimmed non-empty teacher name, an optional
created-date timestamp in milliseconds (`none` models pandas `NaT` and the
absence of a "Created Date" column), and the per-file resource type. -/
structure Record where
  teacherName : String
  createdDate : Option Nat
  resourceType : String
deriving DecidableEq

def msPerDay : Nat := 86400000

def msPerSecond : Nat := 1000

/-- `pd.to_datetime` applied to a calendar date (`datetime.date`) yields the
midnight instant of that day; days are counted from the Unix epoch. -/
def dayMs (d : Nat) : Nat := d * msPerDay

/-- Line 107 of the source: the effective end bound is
`pd.to_datetime(end) + Timedelta(days=1) - Timedelta(seconds=1)`. -/
def endBoundMs (e : Nat) : Nat := dayMs e + msPerDay - msPerSecond

/-- The row-level date predicate of lines 109-111:
`Created Date >= start_date and Created Date <= end_date`.  In pandas every
comparison against `NaT` is `False`, so a record with no date satisfies
neither bound. -/
def passesDate (d : Option Nat) (s e : Nat) : Bool :=
  match d with
  | none => false
  | some t => decide (dayMs s ≤ t) && decide (t ≤ endBoundMs e)

/-- Lines 102-111 of the source: the date filter runs only when the combined
frame has a "Created Date" column (`hasCol`) and not every value in it is
`NaT`; otherwise the frame passes through unchanged.  `s` and `e` are the
calendar days picked in the date-range input. -/
def applyDateFilter (hasCol : Bool) (df : List Record) (s e : Nat) : List Record :=
  if hasCol && df.any (fun r => r.createdDate.isSome) then
    df.filter (fun r => passesDate r.createdDate s e)
  else df

/-- The sentinel entry prepended to the teacher multiselect (line 92). -/
def allOption : String := "All (Select All)"

/-- Lines 90-91: the distinct teacher names of the combined frame, sorted. -/
def teacherNamesOf (df : List Record) : List String :=
  List.insertionSort (fun a b => a ≤ b) (df.map (fun r => r.teacherName)).dedup

/-- Lines 96-99: if the sentinel is among the selected entries the selection
becomes the full teacher list, and the frame is filtered with
`isin(selected_teachers)`. -/
def applyTeacherFilter (df : List Record) (selected : List String) : List Record :=
  let sel := if allOption ∈ selected then teacherNamesOf df else selected
  df.filter (fun r => decide (r.teacherName ∈ sel))

/-- ASCII lower-casing, the effect of Python `str.lower()` on the ASCII
file names and tokens this pipeline deals with. -/
def asciiLower (c : Char) : Char :=
  if 'A' ≤ c ∧ c ≤ 'Z' then Char.ofNat (c.toNat + 32) else c

/-- ASCII upper-casing, the effect of Python `str.upper()` on ASCII. -/
def asciiUpper (c : Char) : Char :=
  if 'a' ≤ c ∧ c ≤ 'z' then Char.ofNat (c.toNat - 32) else c

/-- Python `str.capitalize()`: first character upper-cased, the rest
lower-cased. -/
def pyCapitalize (s : List Char) : List Char :=
  match s with
  | [] => []
  | c :: cs => asciiUpper c :: cs.map asciiLower

/-- The alternatives of the regular expression on line 76, in order. -/
def categoryTokens : List (List Char) :=
  ["quiz".data, "lesson".data, "exam".data, "forum".data, "activity".data]

/-- The leftmost match of `re.search(r"(quiz|lesson|exam|forum|activity)", s)`:
scan positions left to right and at each position try the alternatives in
order. -/
def findTok : List Char → Option (List Char)
  | [] => none
  | c :: rest =>
    match categoryTokens.find? (fun t => t.isPrefixOf (c :: rest)) with
    | some t => some t
    | none => findTok rest

/-- The index of the dot at which `os.path.splitext` splits a plain file
name: the last dot preceded somewhere by a non-dot character.  The boolean
argument records whether a non-dot character has been seen so far. -/
def lastExtSplit (seenNonDot : Bool) : List Char → Option Nat
  | [] => none
  | c :: rest =>
    match lastExtSplit (seenNonDot || decide (c ≠ '.')) rest with
    | some i => some (i + 1)
    | none => if c = '.' && seenNonDot then some 0 else none

/-- The root part of `os.path.splitext(name)` for a bare file name. -/
def splitextRoot (s : List Char) : List Char :=
  match lastExtSplit false s with
  | some i => s.take i
  | none => s

/-- Lines 76-77 of the source: search the lower-cased file name for a
category token and capitalize the match; otherwise capitalize the file's
base name with the extension stripped. -/
def resourceTypeOf (name : String) : String :=
  match findTok (name.data.map asciiLower) with
  | some t => ⟨pyCapitalize t⟩
  | none => ⟨pyCapitalize (splitextRoot name.data)⟩

def digitVal (c : Char) : Option Nat :=
  if '0' ≤ c ∧ c ≤ '9' then some (c.toNat - '0'.toNat) else none

def twoDigits (a b : Char) : Option Nat := do
  let x ← digitVal a
  let y ← digitVal b
  pure (10 * x + y)

def fourDigits (a b c d : Char) : Option Nat := do
  let x ← twoDigits a b
  let y ← twoDigits c d
  pure (100 * x + y)

def isLeapYear (y : Nat) : Bool := (y % 4 = 0 && y % 100 ≠ 0) || y % 400 = 0

def daysInMonth (y m : Nat) : Nat :=
  if m = 2 then (if isLeapYear y then 29 else 28)
  else if m = 4 || m = 6 || m = 9 || m = 11 then 30
  else 31

def daysBeforeYear (y : Nat) : Nat :=
  ((List.range (y - 1970)).map (fun i => if isLeapYear (1970 + i) then 366 else 365)).sum

def daysBeforeMonth (y m : Nat) : Nat :=
  ((List.range (m - 1)).map (fun i => daysInMonth y (i + 1))).sum

def dateToDays (y m d : Nat) : Option Nat :=
  if 1970 ≤ y ∧ 1 ≤ m ∧ m ≤ 12 ∧ 1 ≤ d ∧ d ≤ daysInMonth y m then
    some (daysBeforeYear y + daysBeforeMonth y m + (d - 1))
  else none

/-- Modelled from the spec: `pd.to_datetime(cell, errors="coerce")` on
line 74 is pandas library code outside this repository.  Following the
spec's "parse each cell as a date/time; unparseable values become no date",
we model it for ISO-formatted inputs `YYYY-MM-DD`, optionally followed by a
`T`- or space-separated `HH:MM:SS` time, coercing every other shape (and
pre-epoch dates, since timestamps are naturals) to `none` (NaT). -/
def parseDate (s : String) : Option Nat :=
  match s.data with
  | [y1, y2, y3, y4, '-', m1, m2, '-', d1, d2] => do
    let y ← fourDigits y1 y2 y3 y4
    let m ← twoDigits m1 m2
    let d ← twoDigits d1 d2
    let days ← dateToDays y m d
    pure (days * msPerDay)
  | [y1, y2, y3, y4, '-', m1, m2, '-', d1, d2, sep, h1, h2, ':', n1, n2, ':', s1, s2] =>
    if sep = 'T' || sep = ' ' then do
      let y ← fourDigits y1 y2 y3 y4
      let m ← twoDigits m1 m2
      let d ← twoDigits d1 d2
      let hh ← twoDigits h1 h2
      let nn ← twoDigits n1 n2
      let ss ← twoDigits s1 s2
      if hh ≤ 23 ∧ nn ≤ 59 ∧ ss ≤ 59 then do
        let days ← dateToDays y m d
        pure (days * msPerDay + (hh * 3600 + nn * 60 + ss) * 1000)
      else none
    else none
  | _ => none

/-- A rectangular table as produced by a format-specific parser: a header
row of column labels plus data rows. -/
structure ParsedTable where
  header : List String
  rows : List (List String)
deriving DecidableEq

/-- Lines 61-68 of the source, on already-trimmed column labels: prefer a
column named exactly "Teacher Name"; else one named exactly "Created By"
(to be renamed); else, if there is exactly one column, that column;
else the file has no resolvable contributor column. -/
def teacherColIdx (cols : List String) : Option Nat :=
  match cols.findIdx? (fun c => c == "Teacher Name") with
  | some i => some i
  | none =>
    match cols.findIdx? (fun c => c == "Created By") with
    | some i => some i
    | none => if cols.length = 1 then some 0 else none

/-- Lines 59-80 of the source: trim the column labels, resolve (and rename)
the contributor column, fill and trim the contributor values and drop rows
where it is empty, coerce the "Created Date" column if present, and attach
the per-file resource type to every surviving row. -/
def normalizeFile (fname : String) (t : ParsedTable) : Except String (List Record) :=
  let cols := t.header.map pyStrip
  match teacherColIdx cols with
  | none => Except.error "unknown teacher column"
  | some ti =>
    let cols2 := cols.set ti "Teacher Name"
    let di := cols2.findIdx? (fun c => c == "Created Date")
    let cat := resourceTypeOf fname
    Except.ok (t.rows.filterMap (fun row =>
      let tn := pyStrip (row.getD ti "")
      if tn = "" then none
      else some { teacherName := tn,
                  createdDate := di.bind (fun j => parseDate (row.getD j "")),
                  resourceType := cat }))

/-- Line 43 of the source: a cell's value is `data_elem.text.strip()` when
the `ss:Data` element is present with truthy text, and the empty string
otherwise.  The argument is the text of the cell's data element (`none`
models both a missing element and `None` text). -/
def xmlCellValue (c : Option String) : String :=
  match c with
  | some t => if t = "" then "" else pyStrip t
  | none => ""

/-- Lines 39-44: the legacy XML spreadsheet parser's row extraction. -/
def parseXmlRows (rows : List (List (Option String))) : List (List String) :=
  rows.map (fun r => r.map xmlCellValue)

/-- Modelled from the spec: `pd.read_csv` on line 55 is pandas library code
outside this repository.  Per the spec's "standard comma-delimited parse",
this is its cell-splitting core for one line; it keeps every character of
every cell, whitespace included. -/
def splitCommas : List Char → List (List Char)
  | [] => [[]]
  | c :: rest =>
    if c = ',' then [] :: splitCommas rest
    else
      match splitCommas rest with
      | [] => [[c]]
      | cell :: cells => (c :: cell) :: cells

/-- One uploaded file, after the format sniff of lines 23-28: a legacy XML
spreadsheet whose document has no namespaced table, one whose table has the
given rows of optional cell texts, or a delimited-text / generic
spreadsheet file whose rectangular table pandas has produced. -/
inductive RawFile where
  | xmlNoTable (name : String)
  | xmlTable (name : String) (rows : List (List (Option String)))
  | plainTable (name : String) (table : ParsedTable)
deriving DecidableEq

def RawFile.name : RawFile → String
  | .xmlNoTable n => n
  | .xmlTable n _ => n
  | .plainTable n _ => n

/-- Lines 30-57: the per-format table extraction, with the two warning
paths of lines 46-48 and 51-53. -/
def parseFile : RawFile → Except String ParsedTable
  | .xmlNoTable _ => Except.error "missing XML table"
  | .xmlTable _ rows =>
    match parseXmlRows rows with
    | [] => Except.error "insufficient rows"
    | [_] => Except.error "insufficient rows"
    | h :: rest => Except.ok ⟨h, rest⟩
  | .plainTable _ t => Except.ok t

/-- The outcome of processing one uploaded file: its normalized records, or
a skip/failure reason surfaced to the operator.  The `try`/`except` of
lines 22-83 and the `continue`-with-warning paths both land in `skipped`:
no per-file problem propagates past the file. -/
inductive Outcome where
  | ok (records : List Record)
  | skipped (reason : String)
deriving DecidableEq

/-- Process one file end to end: parse, then normalize, every failure
confined to this file's outcome. -/
def processFile (f : RawFile) : Outcome :=
  match parseFile f with
  | Except.error r => Outcome.skipped r
  | Except.ok t =>
    match normalizeFile f.name t with
    | Except.error r => Outcome.skipped r
    | Except.ok rs => Outcome.ok rs

/-- The loop of lines 21-83 plus the concatenation of line 86: process the
files in order, collecting the records of successful files (in file order)
and a `(fileName, reason)` warning per skipped file. -/
def processBatch (files : List RawFile) : List Record × List (String × String) :=
  files.foldr
    (fun f acc =>
      match processFile f with
      | Outcome.ok rs => (rs ++ acc.1, acc.2)
      | Outcome.skipped r => (acc.1, (f.name, r) :: acc.2))
    ([], [])

/-- The distinct resource types of a frame, sorted, as `unstack` orders the
summary's category columns. -/
def summaryResources (df : List Record) : List String :=
  List.insertionSort (fun a b => a ≤ b) (df.map (fun r => r.resourceType)).dedup

/-- One cell of the `groupby(["Teacher Name", "Resource Type"]).size()`
cross-tabulation on line 116: the number of filtered records with the given
teacher and resource type. -/
def cellCount (df : List Record) (t r : String) : Nat :=
  (df.filter (fun x => x.teacherName == t && x.resourceType == r)).length

/-- One teacher's row of counts, one entry per resource-type column. -/
def rowCells (df : List Record) (t : String) : List Nat :=
  (summaryResources df).map (fun r => cellCount df t r)

/-- Line 118: the "Total" column entry of one teacher's row. -/
def rowTotal (df : List Record) (t : String) : Nat := (rowCells df t).sum

/-- Line 119: the "Total" row entry of one resource-type column. -/
def colTotal (df : List Record) (r : String) : Nat :=
  ((teacherNamesOf df).map (fun t => cellCount df t r)).sum

/-- Line 119's last entry: the column sum of the "Total" column. -/
def grandTotal (df : List Record) : Nat :=
  ((teacherNamesOf df).map (fun t => rowTotal df t)).sum

/-- The summary of lines 116-121: sorted teacher rows, sorted resource-type
columns, each row's cells with its "Total" appended, and the appended
"Total" row with the grand total in the bottom-right cell. -/
structure Summary where
  teachers : List String
  resources : List String
  rows : List (List Nat)
  totalRow : List Nat
deriving DecidableEq

def buildSummary (df : List Record) : Summary :=
  { teachers := teacherNamesOf df
    resources := summaryResources df
    rows := (teacherNamesOf df).map (fun t => rowCells df t ++ [rowTotal df t])
    totalRow := (summaryResources df).map (fun r => colTotal df r) ++ [grandTotal df] }

/-- Lines 96-121 as one function of the merged frame and the filter inputs:
apply the teacher filter, then the date filter, then aggregate. -/
def aggregatePipeline (df : List Record) (selected : List String) (hasCol : Bool)
    (s e : Nat) : Summary :=
  buildSummary (applyDateFilter hasCol (applyTeacherFilter df selected) s e)

/-- Join cells into one comma-delimited line, the inverse direction of
`splitCommas`. -/
def joinCommas : List (List Char) → List Char
  | [] => []
  | [cell] => cell
  | cell :: cells => cell ++ ',' :: joinCommas cells

/-- A well-formed upload whose category token is "quiz". -/
def fileQuiz : RawFile := RawFile.plainTable "quiz1.csv" ⟨["Teacher Name"], [["Alice"]]⟩

/-- An upload with no resolvable contributor column. -/
def fileBroken : RawFile := RawFile.plainTable "lesson2.csv" ⟨["Foo", "Bar"], [["x", "y"]]⟩

/-- A well-formed upload whose category token is "exam". -/
def fileExam : RawFile := RawFile.plainTable "exam3.csv" ⟨["Teacher Name"], [["Bob"]]⟩

/-- The accepted upload extensions of line 14, dots included, lower-cased. -/
def allowedExtsL : List (List Char) :=
  [['.', 'x', 'l', 's'], ['.', 'x', 'l', 's', 'x'], ['.', 'c', 's', 'v'], ['.', 'x', 'm', 'l']]

/-- A three-record frame used as concrete aggregation input. -/
def dfThree : List Record :=
  [⟨"Alice", none, "Quiz"⟩, ⟨"Alice", none, "Quiz"⟩, ⟨"Alice", none, "Quiz"⟩]

/-- A record with no parseable created date. -/
def recNoDate : Record := ⟨"Alice", none, "Quiz"⟩

/-- A record created 2024-03-10T08:00:00 (day 19792 since the epoch). -/
def recMorning : Record := ⟨"Bob", some (dayMs 19792 + 8 * 3600000), "Quiz"⟩

/-- A record created 2024-03-10T23:59:59.999. -/
def recLateNight : Record := ⟨"Cara", some (dayMs 19792 + 86399999), "Quiz"⟩

/-- C1 counterexample: the merged dataset holds a record with no date and a
record with a valid date, so the date filter runs; the no-date record is
removed by it, contradicting "records with no date pass the date filter
unconditionally". -/
theorem c1_counterexample :
    recNoDate ∈ [recNoDate, recMorning] ∧ recNoDate.createdDate = none ∧
    recNoDate ∉ applyDateFilter true [recNoDate, recMorning] 19792 19792 := by
  decide

/-- C1 amended: whenever the date filter actually runs (the column exists and
some record in the contributor-filtered frame has a valid timestamp), every
record whose created date is absent or unparseable is excluded by it. -/
theorem c1_no_date_excluded (df : List Record) (s e : Nat) (r : Record)
    (hnone : r.createdDate = none)
    (hsome : df.any (fun x => x.createdDate.isSome) = true) :
    r ∉ applyDateFilter true df s e := by
  intro hmem
  unfold applyDateFilter at hmem
  rw [Bool.true_and, hsome, if_pos rfl] at hmem
  have hp := List.of_mem_filter hmem
  rw [hnone] at hp
  simp [passesDate] at hp

/-- C1 witness: the amended statement at a concrete input. -/
theorem c1_witness : recNoDate ∉ applyDateFilter true [recNoDate, recMorning] 0 0 :=
  c1_no_date_excluded [recNoDate, recMorning] 0 0 recNoDate rfl (by decide)

/-- C2 counterexample: a record timestamped 2024-03-10T23:59:59.999 lies on
the end calendar day 2024-03-10 (day 19792), yet the filter with range
[2024-03-10, 2024-03-10] removes it: the code's upper bound is 23:59:59.000,
not 23:59:59.999. -/
theorem c2_counterexample :
    dayMs 19792 ≤ dayMs 19792 + 86399999 ∧ dayMs 19792 + 86399999 < dayMs 19793 ∧
    applyDateFilter true [recLateNight] 19792 19792 = [] := by
  refine ⟨by omega, ?_, by decide⟩
  simp only [dayMs, msPerDay]
  omega

/-- C2 amended: with calendar-day bounds the effective upper bound is
23:59:59 of the end day (one day is added and one second subtracted), so
every record with a timestamp on the end day at or before 23:59:59.000
passes the range predicate; in particular a record created
2024-03-10T08:00:00 passes the range [2024-03-10, 2024-03-10]. -/
theorem c2_end_day_included :
    (∀ s e tod : Nat, s ≤ e → tod ≤ 86399000 →
      passesDate (some (dayMs e + tod)) s e = true) ∧
    applyDateFilter true [recMorning] 19792 19792 = [recMorning] := by
  constructor
  · intro s e tod hse htod
    simp only [passesDate, endBoundMs, dayMs, msPerDay, msPerSecond,
      Bool.and_eq_true, decide_eq_true_eq]
    constructor
    · exact Nat.le_trans (Nat.mul_le_mul_right _ hse) (Nat.le_add_right _ _)
    · omega
  · decide

/-- C2 witness: the range predicate at a concrete on-the-end-day instant. -/
theorem c2_witness : passesDate (some (dayMs 5 + 28800000)) 4 5 = true :=
  c2_end_day_included.1 4 5 28800000 (by decide) (by decide)

/-- C3 counterexample: filtering a non-empty dataset with an empty selected
set keeps no records (pandas `isin([])` is everywhere false), contradicting
"an empty contributor set means all". -/
theorem c3_counterexample :
    applyTeacherFilter [recNoDate] [] = [] ∧ [recNoDate] ≠ ([] : List Record) := by
  decide

/-- C3 amended: the selection means "all" exactly when it contains the
sentinel "All (Select All)" (the multiselect's default), in which case it is
expanded to every distinct teacher name and the whole frame is kept;
otherwise a record is kept iff its teacher name is in the selected set.  An
empty selection therefore keeps nothing. -/
theorem c3_selection_semantics (df : List Record) (selected : List String) (r : Record) :
    (allOption ∈ selected → applyTeacherFilter df selected = df) ∧
    (allOption ∉ selected →
      (r ∈ applyTeacherFilter df selected ↔ r ∈ df ∧ r.teacherName ∈ selected)) := by
  constructor
  · intro hall
    unfold applyTeacherFilter
    rw [if_pos hall]
    apply List.filter_eq_self.mpr
    intro a ha
    simp only [decide_eq_true_eq, teacherNamesOf]
    rw [List.mem_insertionSort]
    exact List.mem_dedup.mpr (List.mem_map_of_mem _ ha)
  · intro hnall
    unfold applyTeacherFilter
    rw [if_neg hnall]
    simp [List.mem_filter]

/-- C3 witness: the sentinel selection keeps the whole frame. -/
theorem c3_witness : applyTeacherFilter [recNoDate] [allOption] = [recNoDate] :=
  (c3_selection_semantics [recNoDate] [allOption] recNoDate).1 (List.mem_singleton.mpr rfl)

/-- C10: the date filter is skipped entirely when every record of the
contributor-filtered frame has an absent or unparseable date, and when it is
not skipped it is exactly a row-wise application of the range predicate. -/
theorem c10_skip_when_all_dates_missing (df : List Record) (s e : Nat) :
    (df.all (fun r => r.createdDate.isNone) = true → applyDateFilter true df s e = df) ∧
    (df.any (fun r => r.createdDate.isSome) = true →
      applyDateFilter true df s e = df.filter (fun r => passesDate r.createdDate s e)) := by
  constructor
  · intro hall
    unfold applyDateFilter
    rw [Bool.true_and]
    have hnone : df.any (fun r => r.createdDate.isSome) = false := by
      rw [← Bool.not_eq_true]
      intro hany
      rw [List.any_eq_true] at hany
      obtain ⟨x, hx, hsome⟩ := hany
      rw [List.all_eq_true] at hall
      have := hall x hx
      simp only [Option.isNone_iff_eq_none] at this
      rw [this] at hsome
      simp at hsome
    rw [hnone, if_neg (by simp)]
  · intro hany
    unfold applyDateFilter
    rw [Bool.true_and, hany, if_pos rfl]

/-- C10 witness: a frame whose only record has no date passes unchanged. -/
theorem c10_witness : applyDateFilter true [recNoDate] 3 4 = [recNoDate] :=
  (c10_skip_when_all_dates_missing [recNoDate] 3 4).1 (by decide)

theorem splitCommas_ne_nil (s : List Char) : splitCommas s ≠ [] := by
  match s with
  | [] => simp [splitCommas]
  | c :: rest =>
    unfold splitCommas
    by_cases h : c = ','
    · simp [h]
    · simp only [h, if_false]
      cases splitCommas rest <;> simp

theorem splitCommas_no_comma (a : List Char) (h : ',' ∉ a) : splitCommas a = [a] := by
  induction a with
  | nil => rfl
  | cons c rest ih =>
    have hc : c ≠ ',' := fun hc => h (hc ▸ List.mem_cons_self c rest)
    have hrest : ',' ∉ rest := fun hm => h (List.mem_cons_of_mem c hm)
    unfold splitCommas
    simp only [hc, if_false, ih hrest]

theorem splitCommas_cell_comma (a rest : List Char) (h : ',' ∉ a) :
    splitCommas (a ++ ',' :: rest) = a :: splitCommas rest := by
  induction a with
  | nil => simp [splitCommas]
  | cons c aTail ih =>
    have hc : c ≠ ',' := fun hc => h (hc ▸ List.mem_cons_self c aTail)
    have hTail : ',' ∉ aTail := fun hm => h (List.mem_cons_of_mem c hm)
    rw [List.cons_append, splitCommas.eq_2, if_neg hc, ih hTail]

/-- C4 counterexample: a legacy XML spreadsheet cell holding " Alice " is
parsed to "Alice" — the XML table parser does not preserve the cell's
leading/trailing whitespace, contradicting "no trimming of cell values
happens at the parsing stage" for all three parsers. -/
theorem c4_counterexample :
    parseXmlRows [[some " Alice "]] = [["Alice"]] ∧ (" Alice " : String) ≠ "Alice" := by
  constructor
  · rfl
  · decide

/-- C4 amended: the delimited-text parse keeps every character of every
cell, whitespace included (splitting the comma-joined line of any comma-free
cells returns exactly those cells), but the legacy XML spreadsheet parser
strips each cell value at the parsing stage: every parsed cell equals the
Python-stripped data text. -/
theorem c4_whitespace_per_format :
    (∀ c : Option String, xmlCellValue c = pyStrip (c.getD "")) ∧
    (∀ cells : List (List Char), cells ≠ [] → (∀ cell ∈ cells, ',' ∉ cell) →
      splitCommas (joinCommas cells) = cells) := by
  constructor
  · intro c
    match c with
    | none => rfl
    | some t =>
      simp only [xmlCellValue, Option.getD]
      by_cases h : t = ""
      · subst h; rfl
      · simp [h]
  · intro cells
    induction cells with
    | nil => intro h; exact absurd rfl h
    | cons cell cells ih =>
      intro _ hfree
      match cells, ih with
      | [], _ =>
        exact splitCommas_no_comma cell (hfree cell (List.mem_cons_self _ _))
      | cell2 :: cells2, ih =>
        have h1 : joinCommas (cell :: cell2 :: cells2) =
            cell ++ ',' :: joinCommas (cell2 :: cells2) := rfl
        rw [h1, splitCommas_cell_comma cell _ (hfree cell (List.mem_cons_self _ _))]
        rw [ih (by simp) (fun x hx => hfree x (List.mem_cons_of_mem _ hx))]

/-- C4 witness: the amended statement at concrete inputs with surrounding
whitespace. -/
theorem c4_witness :
    splitCommas (joinCommas [" a ".data, " b ".data]) = [" a ".data, " b ".data] :=
  c4_whitespace_per_format.2 [" a ".data, " b ".data] (by simp) (by decide)

theorem processBatch_append (l1 l2 : List RawFile) :
    processBatch (l1 ++ l2) =
      ((processBatch l1).1 ++ (processBatch l2).1,
       (processBatch l1).2 ++ (processBatch l2).2) := by
  induction l1 with
  | nil => simp [processBatch]
  | cons f l1 ih =>
    simp only [List.cons_append, processBatch, List.foldr_cons] at *
    cases processFile f <;> simp [ih]

/-- C5: a file whose processing fails — parse error, unresolvable schema, or
any exception caught at the file boundary — contributes zero records to the
merged dataset, leaves every other file's records intact and in order, and
is reported in the outcome list under its own name and reason. -/
theorem c5_skip_not_abort (pre post : List RawFile) (f : RawFile) (reason : String)
    (h : processFile f = Outcome.skipped reason) :
    (processBatch (pre ++ f :: post)).1 = (processBatch pre).1 ++ (processBatch post).1 ∧
    (processBatch (pre ++ f :: post)).2 =
      (processBatch pre).2 ++ (f.name, reason) :: (processBatch post).2 := by
  have hstep : processBatch (f :: post) =
      ((processBatch post).1, (f.name, reason) :: (processBatch post).2) := by
    simp only [processBatch, List.foldr_cons, h]
  rw [processBatch_append, hstep]
  exact ⟨rfl, rfl⟩

/-- C5 witness: the spec's three-file scenario — the middle file has no
resolvable contributor column, the merged dataset is exactly the records of
files 1 and 3, and file 2 is reported skipped with reason "unknown teacher
column". -/
theorem c5_witness :
    (processBatch [fileQuiz, fileBroken, fileExam]).1 =
      [⟨"Alice", none, "Quiz"⟩, ⟨"Bob", none, "Exam"⟩] ∧
    (processBatch [fileQuiz, fileBroken, fileExam]).2 =
      [("lesson2.csv", "unknown teacher column")] := by
  have h := c5_skip_not_abort [fileQuiz] [fileExam] fileBroken "unknown teacher column"
    (by decide)
  refine ⟨h.1.trans (by decide), h.2.trans (by decide)⟩

theorem findIdx_none_of_not_mem (cols : List String) (name : String) (h : name ∉ cols) :
    cols.findIdx? (fun c => c == name) = none := by
  rw [List.findIdx?_eq_none_iff]
  intro x hx
  exact beq_eq_false_iff_ne.mpr (fun he => h (he ▸ hx))

/-- C7: contributor-column resolution on the trimmed labels follows the
stated priority — exact "Teacher Name" first, then exact "Created By"
(renamed), then the sole column of a one-column table, and otherwise the
file errors out with "unknown teacher column"; and the spec's example file
with header ["Created By", "Created Date"] and row ["Alice", "2024-01-05"]
normalizes to the record with contributor "Alice" and created
2024-01-05T00:00:00 (1704412800000 ms). -/
theorem c7_contributor_resolution (header cols : List String) (fname : String)
    (rows : List (List String)) (hcols : cols = header.map pyStrip) :
    ("Teacher Name" ∈ cols →
      teacherColIdx cols = cols.findIdx? (fun c => c == "Teacher Name")) ∧
    ("Teacher Name" ∉ cols → "Created By" ∈ cols →
      teacherColIdx cols = cols.findIdx? (fun c => c == "Created By")) ∧
    ("Teacher Name" ∉ cols → "Created By" ∉ cols → cols.length = 1 →
      teacherColIdx cols = some 0) ∧
    ("Teacher Name" ∉ cols → "Created By" ∉ cols → cols.length ≠ 1 →
      normalizeFile fname ⟨header, rows⟩ = Except.error "unknown teacher column") ∧
    normalizeFile "quiz_export.csv"
        ⟨["Created By", "Created Date"], [["Alice", "2024-01-05"]]⟩ =
      Except.ok [⟨"Alice", some 1704412800000, "Quiz"⟩] := by
  refine ⟨?_, ?_, ?_, ?_, ?_⟩
  · intro hmem
    cases hfi : cols.findIdx? (fun c => c == "Teacher Name") with
    | none =>
      rw [List.findIdx?_eq_none_iff] at hfi
      have := hfi "Teacher Name" hmem
      simp at this
    | some i => simp [teacherColIdx, hfi]
  · intro hno hmem
    cases hfi : cols.findIdx? (fun c => c == "Created By") with
    | none =>
      rw [List.findIdx?_eq_none_iff] at hfi
      have := hfi "Created By" hmem
      simp at this
    | some i => simp [teacherColIdx, findIdx_none_of_not_mem cols _ hno, hfi]
  · intro hno1 hno2 hlen
    simp [teacherColIdx, findIdx_none_of_not_mem cols _ hno1,
      findIdx_none_of_not_mem cols _ hno2, hlen]
  · intro hno1 hno2 hlen
    have htc : teacherColIdx cols = none := by
      simp [teacherColIdx, findIdx_none_of_not_mem cols _ hno1,
        findIdx_none_of_not_mem cols _ hno2, hlen]
    simp only [normalizeFile, ← hcols, htc]
  · rfl

/-- C7 witness: resolution at a concrete trimmed header where only
"Created By" is present. -/
theorem c7_witness : teacherColIdx ["Created By", "Created Date"] = some 0 := by
  have h := (c7_contributor_resolution ["Created By", "Created Date"]
    ["Created By", "Created Date"] "quiz_export.csv" [] (by decide)).2.1
    (by decide) (by decide)
  exact h.trans (by decide)

theorem tokens_no_dot : ∀ t ∈ categoryTokens, '.' ∉ t := by decide

theorem isPrefixOf_append_stop (t : List Char) :
    ∀ (x rest : List Char), '.' ∉ t → rest.head? = some '.' →
      (t.isPrefixOf (x ++ rest)) = (t.isPrefixOf x) := by
  induction t with
  | nil => intro x rest _ _; simp
  | cons c t ih =>
    intro x rest ht hrest
    have hc : c ≠ '.' := fun h => ht (h ▸ List.mem_cons_self _ _)
    have htt : '.' ∉ t := fun h => ht (List.mem_cons_of_mem _ h)
    cases x with
    | nil =>
      cases rest with
      | nil => simp at hrest
      | cons r rs =>
        have hr : r = '.' := by simpa using hrest
        subst hr
        show ((c == '.') && t.isPrefixOf rs) = false
        rw [beq_eq_false_iff_ne.mpr hc, Bool.false_and]
    | cons d x2 =>
      show ((c == d) && t.isPrefixOf (x2 ++ rest)) = ((c == d) && t.isPrefixOf x2)
      rw [ih x2 rest htt hrest]

theorem find?_congr_on {α : Type} (l : List α) (p q : α → Bool)
    (h : ∀ x ∈ l, p x = q x) : l.find? p = l.find? q := by
  induction l with
  | nil => rfl
  | cons x l ih =>
    have hx := h x (List.mem_cons_self _ _)
    have ih2 := ih (fun y hy => h y (List.mem_cons_of_mem _ hy))
    rw [List.find?_cons, List.find?_cons, hx, ih2]

theorem findTok_cut (a rest : List Char) (hrest : rest.head? = some '.')
    (hnone : findTok rest = none) : findTok (a ++ rest) = findTok a := by
  induction a with
  | nil => simpa using hnone
  | cons c a ih =>
    rw [List.cons_append, findTok.eq_2, findTok.eq_2]
    have hpref : ∀ t ∈ categoryTokens,
        (t.isPrefixOf (c :: (a ++ rest))) = (t.isPrefixOf (c :: a)) := by
      intro t htok
      have h2 : c :: (a ++ rest) = (c :: a) ++ rest := by simp
      rw [h2]
      exact isPrefixOf_append_stop t (c :: a) rest (tokens_no_dot t htok) hrest
    rw [find?_congr_on categoryTokens _ _ hpref, ih]

theorem lastExtSplit_none (l : List Char) (h : '.' ∉ l) : ∀ b, lastExtSplit b l = none := by
  induction l with
  | nil => intro b; rfl
  | cons c l ih =>
    intro b
    have hc : c ≠ '.' := fun hcc => h (hcc ▸ List.mem_cons_self _ _)
    have hl : '.' ∉ l := fun hm => h (List.mem_cons_of_mem _ hm)
    show (match lastExtSplit (b || decide (c ≠ '.')) l with
      | some i => some (i + 1)
      | none => if c = '.' && b then some 0 else none) = none
    rw [ih hl]
    simp [hc]

theorem lastExtSplit_split (ext2 : List Char) (hnd : '.' ∉ ext2) :
    ∀ (base : List Char) (b : Bool), (b = true ∨ ∃ c ∈ base, c ≠ '.') →
      lastExtSplit b (base ++ '.' :: ext2) = some base.length := by
  intro base
  induction base with
  | nil =>
    intro b hb
    have hbt : b = true := by
      rcases hb with h | ⟨c, hc, _⟩
      · exact h
      · cases hc
    subst hbt
    show (match lastExtSplit (true || decide ('.' ≠ '.')) ext2 with
      | some i => some (i + 1)
      | none => if '.' = '.' && true then some 0 else none) = some 0
    rw [lastExtSplit_none ext2 hnd]
    simp
  | cons c base ih =>
    intro b hb
    show (match lastExtSplit (b || decide (c ≠ '.')) (base ++ '.' :: ext2) with
      | some i => some (i + 1)
      | none => if c = '.' && b then some 0 else none) = some (base.length + 1)
    have hcase : (b || decide (c ≠ '.')) = true ∨ ∃ d ∈ base, d ≠ '.' := by
      rcases hb with h | ⟨d, hd, hdn⟩
      · left; simp [h]
      · rcases List.mem_cons.mp hd with h1 | h1
        · left; subst h1; simp [hdn]
        · right; exact ⟨d, h1, hdn⟩
    rw [ih _ hcase]

theorem splitextRoot_append (base ext2 : List Char) (hb : ∃ c ∈ base, c ≠ '.')
    (hnd : '.' ∉ ext2) : splitextRoot (base ++ '.' :: ext2) = base := by
  unfold splitextRoot
  rw [lastExtSplit_split ext2 hnd base false (Or.inr hb)]
  exact List.take_left base ('.' :: ext2)

/-- C8: for every uploaded file name `base ++ ext` with an accepted
extension, the category is the capitalized leftmost category token of the
case-insensitive search of the base name if one occurs, and otherwise the
capitalized base name with the extension stripped; every record a file
normalizes to carries that one category; and the spec's two examples hold:
`Weekly_Quiz_Report.csv` yields "Quiz" and `custom_export.csv` yields
"Custom_export". -/
theorem c8_category_rule :
    (∀ (base ext2 : List Char), (∃ c ∈ base, c ≠ '.') →
      ('.' :: ext2).map asciiLower ∈ allowedExtsL →
      resourceTypeOf ⟨base ++ '.' :: ext2⟩ =
        match findTok (base.map asciiLower) with
        | some t => (⟨pyCapitalize t⟩ : String)
        | none => (⟨pyCapitalize base⟩ : String)) ∧
    (∀ (fname : String) (t : ParsedTable) (rs : List Record),
      normalizeFile fname t = Except.ok rs →
      ∀ r ∈ rs, r.resourceType = resourceTypeOf fname) ∧
    resourceTypeOf "Weekly_Quiz_Report.csv" = "Quiz" ∧
    resourceTypeOf "custom_export.csv" = "Custom_export" := by
  refine ⟨?_, ?_, by decide, by decide⟩
  · intro base ext2 hbase hext
    have hlowdot : asciiLower '.' = '.' := by decide
    have hmapcons : ('.' :: ext2).map asciiLower = '.' :: ext2.map asciiLower := by
      rw [List.map_cons, hlowdot]
    have hhead : (('.' :: ext2).map asciiLower).head? = some '.' := by
      rw [hmapcons]; rfl
    have hnone : findTok (('.' :: ext2).map asciiLower) = none := by
      simp only [allowedExtsL, List.mem_cons, List.not_mem_nil, or_false] at hext
      rcases hext with h | h | h | h <;> rw [h] <;> decide
    have hnd : '.' ∉ ext2 := by
      intro hdot
      have hmem : '.' ∈ ext2.map asciiLower := List.mem_map.mpr ⟨'.', hdot, hlowdot⟩
      rw [hmapcons] at hext
      simp only [allowedExtsL, List.mem_cons, List.not_mem_nil, or_false] at hext
      rcases hext with h | h | h | h <;>
        · have htl := congrArg List.tail h
          simp only [List.tail_cons] at htl
          rw [htl] at hmem
          exact absurd hmem (by decide)
    unfold resourceTypeOf
    have hdata : (⟨base ++ '.' :: ext2⟩ : String).data = base ++ '.' :: ext2 := rfl
    rw [hdata, List.map_append, findTok_cut _ _ hhead hnone]
    cases hft : findTok (base.map asciiLower) with
    | some t => rfl
    | none =>
      rw [splitextRoot_append base ext2 hbase hnd]
  · intro fname t rs hok r hr
    simp only [normalizeFile] at hok
    cases htc : teacherColIdx (t.header.map pyStrip) with
    | none => rw [htc] at hok; exact absurd hok (by simp)
    | some ti =>
      rw [htc] at hok
      simp only [Except.ok.injEq] at hok
      rw [← hok] at hr
      obtain ⟨row, hrow, hsome⟩ := List.mem_filterMap.mp hr
      by_cases he : pyStrip (row.getD ti "") = ""
      · rw [if_pos he] at hsome
        cases hsome
      · simp only [if_neg he, Option.some.injEq] at hsome
        rw [← hsome]

/-- C8 witness: the category rule applied at a token-free base name with an
accepted extension. -/
theorem c8_witness : resourceTypeOf ⟨"report".data ++ '.' :: "csv".data⟩ = "Report" := by
  have h := c8_category_rule.1 "report".data "csv".data (by decide) (by decide)
  exact h.trans (by decide)

theorem sum_map_add_split {α : Type} (l : List α) (f g : α → Nat) :
    (l.map (fun a => f a + g a)).sum = (l.map f).sum + (l.map g).sum := by
  induction l with
  | nil => rfl
  | cons x l ih =>
    simp only [List.map_cons, List.sum_cons, ih]
    omega

theorem sum_indicator_zero (ks : List String) (a : String) (ha : a ∉ ks) :
    (ks.map (fun k => if a = k then (1 : Nat) else 0)).sum = 0 := by
  induction ks with
  | nil => rfl
  | cons k ks ih =>
    have hne : a ≠ k := fun h => ha (h ▸ List.mem_cons_self _ _)
    have hks : a ∉ ks := fun h => ha (List.mem_cons_of_mem _ h)
    rw [List.map_cons, List.sum_cons, if_neg hne, ih hks]

theorem sum_indicator_one (ks : List String) (a : String) (hnd : ks.Nodup) (ha : a ∈ ks) :
    (ks.map (fun k => if a = k then (1 : Nat) else 0)).sum = 1 := by
  induction ks with
  | nil => cases ha
  | cons k ks ih =>
    rcases List.mem_cons.mp ha with h | h
    · subst h
      have hnotin : a ∉ ks := (List.nodup_cons.mp hnd).1
      rw [List.map_cons, List.sum_cons, if_pos rfl, sum_indicator_zero ks a hnotin]
    · have hne : a ≠ k := fun he => (List.nodup_cons.mp hnd).1 (he ▸ h)
      rw [List.map_cons, List.sum_cons, if_neg hne, ih (List.nodup_cons.mp hnd).2 h]

theorem partition_by_key (key : Record → String) (l : List Record) (ks : List String)
    (hnd : ks.Nodup) (hcov : ∀ x ∈ l, key x ∈ ks) :
    (ks.map (fun k => (l.filter (fun x => key x == k)).length)).sum = l.length := by
  induction l with
  | nil => simp
  | cons x l ih =>
    have hx : key x ∈ ks := hcov x (List.mem_cons_self _ _)
    have hcov2 : ∀ y ∈ l, key y ∈ ks := fun y hy => hcov y (List.mem_cons_of_mem _ hy)
    have hstep : ks.map (fun k => ((x :: l).filter (fun y => key y == k)).length)
        = ks.map (fun k => (if key x = k then (1 : Nat) else 0)
            + (l.filter (fun y => key y == k)).length) := by
      apply List.map_congr_left
      intro k _
      rw [List.filter_cons]
      by_cases h : key x = k
      · simp only [h, beq_self_eq_true, if_pos rfl, if_true, List.length_cons]
        omega
      · simp only [beq_eq_false_iff_ne.mpr h, if_neg h, Bool.false_eq_true, if_false]
        omega
    rw [List.length_cons] at *
    rw [hstep, sum_map_add_split, sum_indicator_one ks (key x) hnd hx, ih hcov2]
    omega

theorem mem_teacherNamesOf {df : List Record} {x : Record} (h : x ∈ df) :
    x.teacherName ∈ teacherNamesOf df := by
  unfold teacherNamesOf
  rw [List.mem_insertionSort]
  exact List.mem_dedup.mpr (List.mem_map_of_mem _ h)

theorem nodup_teacherNamesOf (df : List Record) : (teacherNamesOf df).Nodup := by
  unfold teacherNamesOf
  exact (List.perm_insertionSort _ _).nodup_iff.mpr (List.nodup_dedup _)

theorem mem_summaryResources {df : List Record} {x : Record} (h : x ∈ df) :
    x.resourceType ∈ summaryResources df := by
  unfold summaryResources
  rw [List.mem_insertionSort]
  exact List.mem_dedup.mpr (List.mem_map_of_mem _ h)

theorem nodup_summaryResources (df : List Record) : (summaryResources df).Nodup := by
  unfold summaryResources
  exact (List.perm_insertionSort _ _).nodup_iff.mpr (List.nodup_dedup _)

theorem rowTotal_eq (df : List Record) (t : String) :
    rowTotal df t = (df.filter (fun x => x.teacherName == t)).length := by
  unfold rowTotal rowCells
  have hcell : ∀ r ∈ summaryResources df, cellCount df t r
      = ((df.filter (fun x => x.teacherName == t)).filter
          (fun x => x.resourceType == r)).length := by
    intro r _
    unfold cellCount
    rw [List.filter_filter]
    congr 1
    apply List.filter_congr
    intro x _
    rw [Bool.and_comm]
  rw [List.map_congr_left hcell]
  exact partition_by_key (fun x => x.resourceType) _ (summaryResources df)
    (nodup_summaryResources df)
    (fun x hx => mem_summaryResources (List.mem_of_mem_filter hx))

theorem colTotal_eq (df : List Record) (r : String) :
    colTotal df r = (df.filter (fun x => x.resourceType == r)).length := by
  unfold colTotal
  have hcell : ∀ t ∈ teacherNamesOf df, cellCount df t r
      = ((df.filter (fun x => x.resourceType == r)).filter
          (fun x => x.teacherName == t)).length := by
    intro t _
    unfold cellCount
    rw [List.filter_filter]
  rw [List.map_congr_left hcell]
  exact partition_by_key (fun x => x.teacherName) _ (teacherNamesOf df)
    (nodup_teacherNamesOf df)
    (fun x hx => mem_teacherNamesOf (List.mem_of_mem_filter hx))

theorem grandTotal_eq (df : List Record) : grandTotal df = df.length := by
  unfold grandTotal
  rw [List.map_congr_left (fun t _ => rowTotal_eq df t)]
  exact partition_by_key (fun x => x.teacherName) df (teacherNamesOf df)
    (nodup_teacherNamesOf df) (fun x hx => mem_teacherNamesOf hx)

/-- C6: for a non-empty filtered frame, each summary row is that teacher's
per-category counts with its appended "Total" equal to the number of
filtered records of that teacher; the appended "Total" row holds each
category's count of filtered records with the grand-total cell equal to the
total number of filtered records; and each cell is the count of filtered
records with that (contributor, category) pair. -/
theorem c6_summary_totals (df : List Record) (_hne : df ≠ []) :
    (buildSummary df).rows = (teacherNamesOf df).map (fun t =>
      rowCells df t ++ [(df.filter (fun x => x.teacherName == t)).length]) ∧
    (buildSummary df).totalRow = (summaryResources df).map (fun r =>
      (df.filter (fun x => x.resourceType == r)).length) ++ [df.length] ∧
    ∀ t r, cellCount df t r =
      (df.filter (fun x => x.teacherName == t && x.resourceType == r)).length := by
  refine ⟨?_, ?_, fun t r => rfl⟩
  · show (teacherNamesOf df).map (fun t => rowCells df t ++ [rowTotal df t]) = _
    exact List.map_congr_left (fun t _ => by rw [rowTotal_eq])
  · show (summaryResources df).map (fun r => colTotal df r) ++ [grandTotal df] = _
    rw [List.map_congr_left (fun r _ => colTotal_eq df r), grandTotal_eq]

/-- C6 witness: the totals of a concrete three-record frame. -/
theorem c6_witness : (buildSummary dfThree).totalRow = [3, 3] := by
  have h := (c6_summary_totals dfThree (by decide)).2.1
  rw [h]
  rfl

theorem sortedDedup_eq_of_perm {l1 l2 : List String} (h : l1.Perm l2) :
    List.insertionSort (fun a b => a ≤ b) l1.dedup
      = List.insertionSort (fun a b => a ≤ b) l2.dedup :=
  @List.eq_of_perm_of_sorted String (fun a b => a ≤ b) inferInstance _ _
    ((List.perm_insertionSort _ _).trans (h.dedup.trans (List.perm_insertionSort _ _).symm))
    (List.sorted_insertionSort _ _) (List.sorted_insertionSort _ _)

theorem teacherNamesOf_perm {l1 l2 : List Record} (h : l1.Perm l2) :
    teacherNamesOf l1 = teacherNamesOf l2 :=
  sortedDedup_eq_of_perm (h.map _)

theorem summaryResources_perm {l1 l2 : List Record} (h : l1.Perm l2) :
    summaryResources l1 = summaryResources l2 :=
  sortedDedup_eq_of_perm (h.map _)

theorem cellCount_perm {l1 l2 : List Record} (h : l1.Perm l2) (t r : String) :
    cellCount l1 t r = cellCount l2 t r :=
  (h.filter _).length_eq

theorem buildSummary_perm {l1 l2 : List Record} (h : l1.Perm l2) :
    buildSummary l1 = buildSummary l2 := by
  have ht := teacherNamesOf_perm h
  have hr := summaryResources_perm h
  have hc : ∀ t r, cellCount l1 t r = cellCount l2 t r := cellCount_perm h
  have hrc : ∀ t, rowCells l1 t = rowCells l2 t := by
    intro t
    unfold rowCells
    rw [hr]
    exact List.map_congr_left (fun r _ => hc t r)
  have hrt : ∀ t, rowTotal l1 t = rowTotal l2 t := by
    intro t
    unfold rowTotal
    rw [hrc]
  have hct : ∀ r, colTotal l1 r = colTotal l2 r := by
    intro r
    unfold colTotal
    rw [ht, List.map_congr_left (fun t _ => hc t r)]
  have hg : grandTotal l1 = grandTotal l2 := by
    unfold grandTotal
    rw [ht, List.map_congr_left (fun t _ => hrt t)]
  have hrows : (teacherNamesOf l2).map (fun t => rowCells l1 t ++ [rowTotal l1 t])
      = (teacherNamesOf l2).map (fun t => rowCells l2 t ++ [rowTotal l2 t]) :=
    List.map_congr_left (fun t _ => by rw [hrc t, hrt t])
  have htot : (summaryResources l2).map (fun r => colTotal l1 r)
      = (summaryResources l2).map (fun r => colTotal l2 r) :=
    List.map_congr_left (fun r _ => hct r)
  unfold buildSummary
  rw [ht, hr, hrows, htot, hg]

theorem applyTeacherFilter_comm (A B : List Record) (sel : List String) :
    (applyTeacherFilter (A ++ B) sel).Perm (applyTeacherFilter (B ++ A) sel) := by
  unfold applyTeacherFilter
  rw [teacherNamesOf_perm (@List.perm_append_comm _ A B)]
  exact List.Perm.filter _ List.perm_append_comm

theorem applyDateFilter_perm {l1 l2 : List Record} (h : l1.Perm l2) (hasCol : Bool)
    (s e : Nat) : (applyDateFilter hasCol l1 s e).Perm (applyDateFilter hasCol l2 s e) := by
  unfold applyDateFilter
  have hany : l1.any (fun r => r.createdDate.isSome)
      = l2.any (fun r => r.createdDate.isSome) := by
    apply Bool.coe_iff_coe.mp
    simp only [List.any_eq_true]
    constructor
    · rintro ⟨x, hx, hp⟩; exact ⟨x, h.mem_iff.mp hx, hp⟩
    · rintro ⟨x, hx, hp⟩; exact ⟨x, h.mem_iff.mpr hx, hp⟩
  rw [hany]
  by_cases hcond : (hasCol && l2.any (fun r => r.createdDate.isSome)) = true
  · rw [if_pos hcond, if_pos hcond]
    exact h.filter _
  · rw [if_neg hcond, if_neg hcond]
    exact h

/-- C9: aggregating the merge of two per-file record lists is independent of
the merge order — the whole filtered summary (teacher rows, category
columns, cells, row and column totals, grand total) of `A ++ B` equals that
of `B ++ A` for every teacher selection, date-column state and date range. -/
theorem c9_merge_order_immaterial (A B : List Record) (sel : List String)
    (hasCol : Bool) (s e : Nat) :
    aggregatePipeline (A ++ B) sel hasCol s e = aggregatePipeline (B ++ A) sel hasCol s e := by
  unfold aggregatePipeline
  exact buildSummary_perm (applyDateFilter_perm (applyTeacherFilter_comm A B sel) hasCol s e)
